import Mathlib

/-!
Verification of the Prompt-Builder composition/synchronization engine.

The TypeScript sources are embedded shallowly:
* JS strings are `String` (lists of characters); literal braces are written
  with the escapes `\x7b` / `\x7d`.
* The regex scans of `variableUtils` are embedded as fuel-indexed character
  scanners (fuel = input length always suffices, so the definitions compute).
* JS objects holding optional fields become structures of `Option` fields;
  `JSON.parse` failure is an explicit constructor.
* Functions of the repository that are only called from the embedded files
  (their bodies live outside the provided sources) are modelled from the
  specification; each such definition carries a doc comment starting with
  `Modelled from the spec:`.
-/

namespace PromptBuilder

/-! ## Data model -/

/-- A library component node's payload, as serialized into drag payloads:
`id`, `name`, `componentType`, `content` (src/types, usage in
`VariablesPane/index.tsx` and `Section/index.tsx`). -/
structure Component where
  id : String
  name : String
  componentType : String
  content : String
deriving DecidableEq, Repr

/-- The library tree: folders with ordered children, or components
(`TreeNode` in src/types as used by `TreeNodeComponent` and
`findComponentById`). -/
inductive TreeNode where
  | folder (id name : String) (expanded : Bool) (children : List TreeNode)
  | component (id name componentType content : String)
deriving Repr

/-- A prompt section (src/types as used by `Section/index.tsx`):
`originalContent` and `linkedComponentId` are optional in the TS type, so
they are `Option String` here; `isOpen` embeds the TS field `open`. -/
structure Section where
  id : String
  type : String
  name : String
  content : String
  isOpen : Bool
  linkedComponentId : Option String
  originalContent : Option String
  dirty : Bool
deriving DecidableEq, Repr

/-! ## VariableEngine (src/utils/variableUtils.ts, shipped alongside
`HighlightedTextarea/index.tsx`) -/

/-- Fuel-indexed embedding of the global regex scan
`/\x7b\x7b([^\x7d]+)\x7d\x7d/g` used by `extractVariables`: starting at each
position, match two open braces, a maximal nonempty run of non-close-brace
characters, then two close braces; on failure retry at the next position, on
success continue after the match.  Fuel `≥` input length always suffices. -/
def scanVarsF (fuel : Nat) (s : List Char) : List String :=
  match fuel, s with
  | 0, _ => []
  | _, [] => []
  | f + 1, '\x7b' :: '\x7b' :: rest =>
    let body := rest.takeWhile (· ≠ '\x7d')
    let rest' := rest.dropWhile (· ≠ '\x7d')
    if body ≠ [] ∧ rest'.take 2 = ['\x7d', '\x7d'] then
      body.asString :: scanVarsF f (rest'.drop 2)
    else
      scanVarsF f ('\x7b' :: rest)
  | f + 1, _ :: cs => scanVarsF f cs

/-- All raw captures of the `extractVariables` regex over a text. -/
def scanVars (s : List Char) : List String :=
  scanVarsF s.length s

/-- JS `String.prototype.trim`: drop leading and trailing whitespace
(restricted to the ASCII whitespace characters, which is all the claims
exercise). -/
def jsTrim (s : String) : String :=
  (((s.data.dropWhile Char.isWhitespace).reverse.dropWhile
      Char.isWhitespace).reverse).asString

/-- The loop body of `extractVariables`: trim a capture, push it when it is
nonempty and not yet collected. -/
def extractStep (acc : List String) (m : String) : List String :=
  let v := jsTrim m
  if v ≠ "" ∧ v ∉ acc then acc ++ [v] else acc

/-- Embedding of `extractVariables` (variableUtils.ts): scan all
`\x7b\x7bname\x7d\x7d` captures, trim each, keep a nonempty name only if it
is not already collected. -/
def extractVariables (text : String) : List String :=
  if text = "" then []
  else (scanVars text.data).foldl extractStep []

/-- The search pattern `\x7b\x7bname\x7d\x7d` that `replaceVariables`
builds from a variable name, modelled as a literal character sequence.
The source interpolates the name unescaped into a regex, so this model is
faithful exactly when the name contains no regex metacharacters (for
example plain alphanumeric names); general statements about
`replaceVariables` below are restricted to that domain. -/
def patOf (name : String) : List Char :=
  '\x7b' :: '\x7b' :: (name.data ++ ['\x7d', '\x7d'])

/-- Fuel-indexed embedding of one JS `result.replace(regex_g, value)` step
with a literal pattern: scan left to right, replace each non-overlapping
occurrence, never re-scan the replacement text.  Fuel `≥` input length
always suffices. -/
def replaceAllF (pat rep : List Char) : Nat → List Char → List Char
  | _, [] => []
  | 0, s => s
  | f + 1, c :: cs =>
    if pat ≠ [] ∧ pat <+: (c :: cs) then
      rep ++ replaceAllF pat rep f ((c :: cs).drop pat.length)
    else
      c :: replaceAllF pat rep f cs

/-- One global literal replacement pass (JS `String.prototype.replace` with
a `g` regex of a literal pattern).  The replacement is inserted verbatim;
the source honors `$`-substitution sequences in the value, so this model
is faithful exactly when the value contains no `$` character — general
statements below are restricted to that domain. -/
def replaceAll (pat rep s : List Char) : List Char :=
  replaceAllF pat rep s.length s

/-- Embedding of `replaceVariables` (variableUtils.ts): fold over the
mapping's entries in iteration order; each entry globally replaces its
`\x7b\x7bname\x7d\x7d` pattern in the accumulated result (`value || ''`
degenerates to the value itself since absent values are not modelled). -/
def replaceVariables (text : String) (vars : List (String × String)) : String :=
  (vars.foldl (fun result nv => replaceAll (patOf nv.1) nv.2.data result)
    text.data).asString

example : extractVariables "\x7b\x7ba\x7d\x7d \x7b\x7bb\x7d\x7d \x7b\x7ba\x7d\x7d" = ["a", "b"] := by decide
example : extractVariables "\x7b\x7b a \x7d\x7d" = ["a"] := by decide
example : replaceVariables "Hi \x7b\x7bname\x7d\x7d" [("name", "Bo")] = "Hi Bo" := by decide
example : replaceVariables "\x7b\x7ba\x7d\x7d" [("a", "\x7b\x7bb\x7d\x7d"), ("b", "B")] = "B" := by decide
example : replaceVariables "\x7b\x7ba\x7d\x7d" [("b", "B"), ("a", "\x7b\x7bb\x7d\x7d")] = "\x7b\x7bb\x7d\x7d" := by decide

/-! ## Compiled prompt text and clipboard copy
(src/unnamed/part_001 `copyPrompt` and `ActionBar.tsx` `copyPrompt`) -/

/-- JS `Array.prototype.join(sep)`: empty array gives `""`, otherwise fold
the separator between successive elements. -/
def joinSep (sep : String) : List String → String
  | [] => ""
  | x :: xs => xs.foldl (fun acc y => acc ++ sep ++ y) x

/-- Embedding of the prompt compilation in `copyPrompt`
(src/unnamed/part_001):
`sections.map(s => s.content).filter(c => c.trim()).join('\n\n')` —
keep the contents whose trim is nonempty, join with a blank line.  This is
the `getCompiledPromptText` operation of the spec (§4.4). -/
def getCompiledPromptText (sections : List Section) : String :=
  joinSep "\n\n" ((sections.map Section.content).filter (fun c => jsTrim c ≠ ""))

/-- Embedding of `copyPrompt` (src/unnamed/part_001 lines 40–55, identical
in `ActionBar.tsx`): compile the sections, substitute variables when the
mapping is nonempty, and when markdown mode is on and the system prompt is
nonempty prefix it — the source joins with the string literal `"\\n\\n"`,
i.e. the four characters backslash-n-backslash-n, not a blank line. -/
def copyPrompt (sections : List Section) (vars : List (String × String))
    (systemPrompt : String) (markdownEnabled : Bool) : String :=
  let promptText := getCompiledPromptText sections
  let promptText := if vars ≠ [] then replaceVariables promptText vars else promptText
  if markdownEnabled ∧ systemPrompt ≠ "" then
    systemPrompt ++ "\\n\\n" ++ promptText
  else
    promptText

/-! ## Persistence: POST /api/prompts (src/unnamed/part_000) -/

/-- The fields `POST` destructures from the parsed request body; each may be
absent (`Partial<Prompt>`); `vars` embeds the TS field `variables`. -/
structure PromptDraft where
  name : Option String := none
  sections : Option (List Section) := none
  vars : Option (List (String × String)) := none
  num : Option Int := none

/-- A create-prompt request: either the body failed to parse as JSON
(`request.json()` threw a `SyntaxError`) or it parsed to a draft. -/
inductive PostRequest where
  | malformed
  | body (d : PromptDraft)

/-- The stored row the route inserts and echoes back (timestamps omitted:
they are wall-clock values irrelevant to the claims). -/
structure StoredPrompt where
  id : String
  name : String
  sections : List Section
  vars : List (String × String)
  num : Option Int
deriving DecidableEq, Repr

/-- A response: HTTP status plus either the created prompt or an error
message. -/
inductive PostResponse where
  | created (status : Nat) (p : StoredPrompt)
  | failure (status : Nat) (message : String)
deriving DecidableEq, Repr

/-- Embedding of `POST` (src/unnamed/part_000 lines 41–85): malformed JSON
is a 400 with a message; a falsy `name` (absent or empty) is a 400 with a
message; otherwise insert with `sections || []` and `variables || {}`,
respond 201 with the created prompt.  `newId` stands for the generated
uuid; the database insert always succeeds in this model. -/
def POST (newId : String) : PostRequest → PostResponse
  | .malformed => .failure 400 "Invalid JSON format in request body"
  | .body d =>
    match d.name with
    | none => .failure 400 "Prompt name is required"
    | some nm =>
      if nm = "" then .failure 400 "Prompt name is required"
      else .created 201 ⟨newId, nm, d.sections.getD [], d.vars.getD [], d.num⟩

/-! ## Tree lookups and folder drag (src/components/VariablesPane/index.tsx,
src/components/PromptEditor/Section/index.tsx) -/

/-- Embedding of `findComponentById` (Section/index.tsx lines 23–36): walk
the node list in order; a node is returned when its id matches and it is a
component; folder nodes are searched recursively before moving on. -/
def findComponentById : List TreeNode → String → Option Component
  | [], _ => none
  | .component i n t c :: rest, cid =>
    if i = cid then some ⟨i, n, t, c⟩ else findComponentById rest cid
  | .folder _ _ _ children :: rest, cid =>
    match findComponentById children cid with
    | some c => some c
    | none => findComponentById rest cid

/-- Modelled from the spec: `getAllComponentsFromFolder`
(src/utils/treeUtils, not among the provided sources; spec §4.1
`collectComponentsUnder`) — the ordered sequence of every component
reachable under a node via depth-first, children-in-order traversal. -/
def getAllComponentsFromFolder : TreeNode → List Component
  | .component i n t c => [⟨i, n, t, c⟩]
  | .folder _ _ _ children =>
    (children.attach.map (fun x => getAllComponentsFromFolder x.1)).flatten
decreasing_by
  have h := List.sizeOf_lt_of_mem x.2
  simp only [TreeNode.folder.sizeOf_spec]
  omega

/-- The transfer payload a tree-node drag writes under the
`application/json` key (TreeNodeComponent `handleDragStart`). -/
inductive DragStartPayload where
  | componentPayload (c : Component)
  | folderPayload (folderName : String) (components : List Component)
deriving DecidableEq, Repr

/-- Embedding of `handleDragStart` (VariablesPane/index.tsx lines 236–283):
a component writes itself as the payload; a folder collects its components
depth-first and, when that collection is empty, calls `preventDefault` and
returns without writing any payload (`none`) — the drag never starts. -/
def handleDragStart : TreeNode → Option DragStartPayload
  | .component i n t c => some (.componentPayload ⟨i, n, t, c⟩)
  | .folder i n e ch =>
    let allComponents := getAllComponentsFromFolder (.folder i n e ch)
    if allComponents = [] then none
    else some (.folderPayload n allComponents)

/-! ## LinkSync (Section/index.tsx useEffect, lines 53–65) -/

/-- Modelled from the spec: `updateSectionFromLinkedComponent`
(PromptContext, not among the provided sources; spec §4.5) — push the
resolved component's fields into the section (overwriting `content`,
`type`, `name`), advance `originalContent` to match, clearing `dirty`. -/
def updateSectionFromLinkedComponent (s : Section) (c : Component) : Section :=
  { s with
    content := c.content
    type := c.componentType
    name := c.name
    originalContent := some c.content
    dirty := false }

/-- Embedding of the link-sync `useEffect` (Section/index.tsx lines 53–65):
when the section's `linkedComponentId` resolves and the component's
`content`/`componentType`/`name` differs from the section's
`originalContent`/`type`/`name` snapshot, refresh the section from the
component; otherwise leave it untouched. -/
def linkSyncSection (treeData : List TreeNode) (s : Section) : Section :=
  match s.linkedComponentId with
  | none => s
  | some cid =>
    match findComponentById treeData cid with
    | none => s
    | some c =>
      if some c.content ≠ s.originalContent ∨ c.componentType ≠ s.type ∨ c.name ≠ s.name then
        updateSectionFromLinkedComponent s c
      else s

/-! ## Dropping onto a section (Section/index.tsx `handleDrop`,
lines 82–132) -/

/-- The parsed `application/json` drag payload as `handleDrop` inspects it:
every field it reads may be absent.  `payloadType` embeds the JS field
`type` of a single-component payload; `components` being `some` embeds
`dragData.components && Array.isArray(dragData.components)`. -/
structure DragData where
  dragType : Option String := none
  payloadType : Option String := none
  componentType : Option String := none
  components : Option (List Component) := none
  id : Option String := none
  name : Option String := none
  content : Option String := none

/-- What reached the drop handler: `JSON.parse` threw (also the empty
payload), parsed to a falsy value (`if (!dragData) return`), or parsed to
an object. -/
inductive DropOutcome where
  | parseError
  | parsedFalsy
  | parsed (d : DragData)

/-- JS truthiness of an optional string field: present and nonempty. -/
def truthyStr : Option String → Bool
  | some s => s ≠ ""
  | none => false

/-- Modelled from the spec: `updateSection` (PromptContext, not among the
provided sources; spec §4.4) — merge the given fields into the prompt's
section with the given id, leaving every other section untouched. -/
def updateSectionById (sections : List Section) (sid : String)
    (f : Section → Section) : List Section :=
  sections.map fun s => if s.id = sid then f s else s

/-- The field set the folder/component drop passes to `updateSection`
(Section/index.tsx): content, type (defaulted to `'instruction'` when the
component's type is falsy), name, `linkedComponentId`, `originalContent`;
per spec §4.3 the drop clears `dirty`. -/
def applyDropComponent (c : Component) (s : Section) : Section :=
  { s with
    content := c.content
    type := if c.componentType = "" then "instruction" else c.componentType
    name := c.name
    linkedComponentId := some c.id
    originalContent := some c.content
    dirty := false }

/-- The same update for the single-component payload shape, whose fields
are read directly off the parsed object (absent string fields are modelled
as empty; the guard has already checked `componentType` truthy). -/
def applyDropPayload (d : DragData) (s : Section) : Section :=
  { s with
    content := d.content.getD ""
    type := d.componentType.getD ""
    name := d.name.getD ""
    linkedComponentId := d.id
    originalContent := d.content
    dirty := false }

/-- JS `Array.prototype.splice(pos, 0, x)`: insert at `pos`, clamping to
the end when `pos` exceeds the length. -/
def insertAt : List Section → Nat → Section → List Section
  | l, 0, s => s :: l
  | [], _ + 1, s => [s]
  | x :: xs, n + 1, s => x :: insertAt xs n s

/-- Modelled from the spec: `addSectionFromComponent` (PromptContext, not
among the provided sources; spec §4.3/§4.4) — a new section bound to the
component, inserted at the given index: the component's fields become the
section's `type`/`name`/`content`, `linkedComponentId` points at the
component and `originalContent` snapshots its content, `dirty` clear.  The
generated fresh id is modelled deterministically from the component id. -/
def sectionFromComponent (c : Component) : Section :=
  { id := "section-for-" ++ c.id
    type := c.componentType
    name := c.name
    content := c.content
    isOpen := true
    linkedComponentId := some c.id
    originalContent := some c.content
    dirty := false }

/-- The fan-out loop of the folder drop:
`components.slice(1).forEach((component, idx) => addSectionFromComponent(promptId, component, index + 1 + idx))`. -/
def insertFan (sections : List Section) (pos : Nat) : List Component → List Section
  | [] => sections
  | c :: cs => insertFan (insertAt sections pos (sectionFromComponent c)) (pos + 1) cs

/-- Embedding of `handleDrop` (Section/index.tsx lines 82–132) acting on
the owning prompt's section list.  `sec` and `index` are the component's
props (the target section and its index).  A folder payload with a
components array overwrites the target with the first component and fans
the rest out after it; a component payload overwrites the target; anything
else — parse failure, falsy data, or an unrecognized shape — returns the
sections unchanged (the `try`/`catch` swallows all errors). -/
def handleDrop (sections : List Section) (sec : Section) (index : Nat) :
    DropOutcome → List Section
  | .parseError => sections
  | .parsedFalsy => sections
  | .parsed d =>
    if d.dragType = some "folder" ∧ d.components.isSome then
      match d.components.getD [] with
      | [] => sections
      | c1 :: rest =>
        insertFan (updateSectionById sections sec.id (applyDropComponent c1)) (index + 1) rest
    else if d.payloadType = some "component" ∧ truthyStr d.componentType then
      updateSectionById sections sec.id (applyDropPayload d)
    else
      sections

/-! ## Helper lemmas -/

lemma getAll_folder (i n : String) (e : Bool) (ch : List TreeNode) :
    getAllComponentsFromFolder (.folder i n e ch) =
      (ch.map getAllComponentsFromFolder).flatten := by
  rw [getAllComponentsFromFolder, List.attach_map_val]

lemma getAll_component (i n t c : String) :
    getAllComponentsFromFolder (.component i n t c) = [⟨i, n, t, c⟩] := by
  rw [getAllComponentsFromFolder]

/-- A freestanding section holding the given content, for the concrete
instances below. -/
def plainSection (content : String) : Section :=
  ⟨"s-" ++ content, "instruction", "Section", content, true, none, none, false⟩

/-- Spec-level blank-line concatenation: one `"\n\n"` separator strictly
between consecutive kept contents, none leading, trailing, or doubled. -/
def joinBlank : List String → String
  | [] => ""
  | [x] => x
  | x :: y :: xs => x ++ "\n\n" ++ joinBlank (y :: xs)

lemma foldl_join_prepend (sep : String) (xs : List String) (a b : String) :
    xs.foldl (fun acc y => acc ++ sep ++ y) (a ++ b) =
      a ++ xs.foldl (fun acc y => acc ++ sep ++ y) b := by
  induction xs generalizing b with
  | nil => rfl
  | cons x xs ih =>
    simp only [List.foldl_cons]
    have hassoc : a ++ b ++ sep ++ x = a ++ (b ++ sep ++ x) := by
      simp [String.append_assoc]
    rw [hassoc, ih]

lemma joinSep_cons_cons (x y : String) (xs : List String) :
    joinSep "\n\n" (x :: y :: xs) = x ++ "\n\n" ++ joinSep "\n\n" (y :: xs) := by
  simp only [joinSep, List.foldl_cons]
  exact foldl_join_prepend "\n\n" xs (x ++ "\n\n") y

lemma joinSep_eq_joinBlank : ∀ l : List String, joinSep "\n\n" l = joinBlank l
  | [] => rfl
  | [x] => rfl
  | x :: y :: xs => by
    rw [joinSep_cons_cons, joinSep_eq_joinBlank (y :: xs), joinBlank]

/-! ## Claim theorems -/

/-- C7: the compiled prompt text keeps exactly the section contents whose
trim is nonempty, in section order, joined by one blank line strictly
between consecutive kept contents; `["", "  ", "Body"]` compiles to
`"Body"`. -/
theorem getCompiledPromptText_spec :
    (∀ sections : List Section,
      getCompiledPromptText sections =
        joinBlank ((sections.map Section.content).filter (fun c => jsTrim c ≠ ""))) ∧
    getCompiledPromptText [plainSection "", plainSection "  ", plainSection "Body"] = "Body" := by
  constructor
  · intro sections
    exact joinSep_eq_joinBlank _
  · decide

/-- C8: creating a prompt rejects with a 400 and a descriptive message when
the body is unparseable or the `name` field is missing, and otherwise
succeeds (201) with `sections` defaulting to the empty sequence and
`variables` to the empty mapping when omitted. -/
theorem POST_create_prompt_spec :
    (∀ newId : String,
      POST newId .malformed = .failure 400 "Invalid JSON format in request body") ∧
    (∀ (newId : String) (d : PromptDraft), d.name = none →
      POST newId (.body d) = .failure 400 "Prompt name is required") ∧
    (∀ (newId : String) (d : PromptDraft) (nm : String), d.name = some nm → nm ≠ "" →
      POST newId (.body d) =
        .created 201 ⟨newId, nm, d.sections.getD [], d.vars.getD [], d.num⟩) := by
  refine ⟨fun _ => rfl, fun newId d h => ?_, fun newId d nm h hne => ?_⟩
  · simp [POST, h]
  · simp [POST, h, hne]

/-- Witness for C8 at a concrete draft with `sections` and `variables`
omitted. -/
theorem POST_create_prompt_spec_witness :
    POST "p1" (.body { name := some "My prompt" }) =
      .created 201 ⟨"p1", "My prompt", [], [], none⟩ := by
  have h := POST_create_prompt_spec.2.2 "p1" { name := some "My prompt" } "My prompt" rfl
    (by decide)
  simpa using h

/-- C9 (code bug): with markdown mode on and a nonempty system prompt, the
sink receives the system prompt joined to the compiled text by the literal
four characters backslash-n-backslash-n (the source writes `"\\n\\n"`), not
by a blank line of two newline characters. -/
theorem copyPrompt_markdown_literal_backslashes :
    copyPrompt [plainSection "Body"] [] "SYS" true = "SYS\\n\\nBody" ∧
    ("SYS\\n\\nBody" : String) ≠ "SYS\n\nBody" := by decide

/-- C10: a drop whose payload is unparseable, falsy, or of neither the
folder-with-components shape nor the component-with-truthy-componentType
shape leaves every section unchanged (and the handler is total: the
`try`/`catch` swallows all errors). -/
theorem handleDrop_unrecognized_no_mutation :
    (∀ (sections : List Section) (sec : Section) (index : Nat),
      handleDrop sections sec index .parseError = sections) ∧
    (∀ (sections : List Section) (sec : Section) (index : Nat),
      handleDrop sections sec index .parsedFalsy = sections) ∧
    (∀ (sections : List Section) (sec : Section) (index : Nat) (d : DragData),
      ¬(d.dragType = some "folder" ∧ d.components.isSome) →
      ¬(d.payloadType = some "component" ∧ truthyStr d.componentType = true) →
      handleDrop sections sec index (.parsed d) = sections) := by
  refine ⟨fun _ _ _ => rfl, fun _ _ _ => rfl, fun sections sec index d h1 h2 => ?_⟩
  simp only [handleDrop]
  rw [if_neg h1, if_neg h2]

/-- Witness for C10 at a concrete `existingSection` payload. -/
theorem handleDrop_unrecognized_no_mutation_witness :
    handleDrop [plainSection "Body"] (plainSection "Body") 0
        (.parsed { dragType := some "existingSection", id := some "s1" }) =
      [plainSection "Body"] :=
  handleDrop_unrecognized_no_mutation.2.2 _ _ _ _ (by simp) (by simp [truthyStr])

/-- C2: when a section's link resolves and the component's
content/type/name differs from the section's `originalContent`/`type`/`name`
snapshot, the sync pass overwrites the section's content, type and name
with the component's, advances `originalContent` to the component's
content, and clears `dirty`; when the component matches the snapshot the
section is untouched even if its current `content` has been edited away —
the comparison reads the snapshot, never the current content. -/
theorem linkSync_refreshes_from_component
    (tree : List TreeNode) (s : Section) (cid : String) (c : Component)
    (hlink : s.linkedComponentId = some cid)
    (hfind : findComponentById tree cid = some c) :
    ((some c.content ≠ s.originalContent ∨ c.componentType ≠ s.type ∨ c.name ≠ s.name) →
      linkSyncSection tree s =
        { s with content := c.content, type := c.componentType, name := c.name,
                 originalContent := some c.content, dirty := false }) ∧
    (some c.content = s.originalContent → c.componentType = s.type → c.name = s.name →
      linkSyncSection tree s = s) := by
  constructor
  · intro hdiff
    simp only [linkSyncSection, hlink, hfind]
    rw [if_pos hdiff]
    simp [updateSectionFromLinkedComponent, hlink]
  · intro h1 h2 h3
    simp only [linkSyncSection, hlink, hfind]
    rw [if_neg (by simp [h1, h2, h3])]

/-- Witness for C2: the spec's scenario — a section synced at `"X"` whose
component was externally updated to `"Y"` ends with
`content = originalContent = "Y"` and `dirty = false`. -/
theorem linkSync_refreshes_from_component_witness :
    linkSyncSection [.component "c1" "Name" "instruction" "Y"]
        ⟨"s1", "instruction", "Name", "X", true, some "c1", some "X", false⟩ =
      ⟨"s1", "instruction", "Name", "Y", true, some "c1", some "Y", false⟩ := by
  have h := (linkSync_refreshes_from_component
    [.component "c1" "Name" "instruction" "Y"]
    ⟨"s1", "instruction", "Name", "X", true, some "c1", some "X", false⟩
    "c1" ⟨"c1", "Name", "instruction", "Y"⟩ rfl
    (by simp [findComponentById])).1 (by simp)
  simpa using h

/-- C6: a folder under which the depth-first component collection is empty
refuses the drag at the source — `preventDefault` fires and no payload is
written to the transfer medium, so no drop (and hence no section mutation)
can follow. -/
theorem empty_folder_drag_refused (i n : String) (e : Bool) (ch : List TreeNode)
    (h : getAllComponentsFromFolder (.folder i n e ch) = []) :
    handleDragStart (.folder i n e ch) = none := by
  simp only [handleDragStart]
  rw [if_pos h]

/-- Witness for C6 at a folder containing only an empty subfolder. -/
theorem empty_folder_drag_refused_witness :
    handleDragStart (.folder "f1" "Empty" true [.folder "f2" "Inner" false []]) = none :=
  empty_folder_drag_refused "f1" "Empty" true [.folder "f2" "Inner" false []]
    (by simp [getAll_folder])

lemma insertAt_append (A B : List Section) (x : Section) :
    insertAt (A ++ B) A.length x = A ++ x :: B := by
  induction A with
  | nil =>
    cases B <;> rfl
  | cons a A ih =>
    simp only [List.cons_append, List.length_cons, insertAt]
    exact congrArg (a :: ·) ih

lemma insertFan_append (B : List Section) (cs : List Component) :
    ∀ A : List Section, insertFan (A ++ B) A.length cs = A ++ cs.map sectionFromComponent ++ B := by
  induction cs with
  | nil =>
    intro A
    simp [insertFan]
  | cons c cs ih =>
    intro A
    rw [insertFan, insertAt_append]
    have h1 : A ++ sectionFromComponent c :: B = (A ++ [sectionFromComponent c]) ++ B := by
      simp
    have h2 : A.length + 1 = (A ++ [sectionFromComponent c]).length := by
      simp
    rw [h1, h2, ih]
    simp

lemma updateSectionById_append (pre post : List Section) (S : Section)
    (f : Section → Section)
    (hpre : ∀ t ∈ pre, t.id ≠ S.id) (hpost : ∀ t ∈ post, t.id ≠ S.id) :
    updateSectionById (pre ++ S :: post) S.id f = pre ++ f S :: post := by
  unfold updateSectionById
  rw [List.map_append, List.map_cons, if_pos rfl]
  congr 1
  · exact List.map_congr_left (fun t ht => if_neg (hpre t ht)) |>.trans (List.map_id _)
  · congr 1
    exact List.map_congr_left (fun t ht => if_neg (hpost t ht)) |>.trans (List.map_id _)

/-- C3: a folder drop whose payload carries components `c1 :: cs` onto
section `S` (sitting at index `pre.length`) rewrites `S` with `c1`'s
fields (binding `linkedComponentId` to `c1` and snapshotting
`originalContent = c1.content`) and inserts one new section per remaining
component immediately after `S`, bound to `c2 … cn` in payload order; the
sections before and after are returned unchanged. -/
theorem handleDrop_folder_fan_out
    (pre post : List Section) (S : Section) (c1 : Component) (cs : List Component)
    (hpre : ∀ t ∈ pre, t.id ≠ S.id) (hpost : ∀ t ∈ post, t.id ≠ S.id)
    (hty : c1.componentType ≠ "") :
    handleDrop (pre ++ S :: post) S pre.length
        (.parsed { dragType := some "folder", components := some (c1 :: cs) }) =
      pre ++ { S with content := c1.content, type := c1.componentType, name := c1.name,
                      linkedComponentId := some c1.id, originalContent := some c1.content,
                      dirty := false }
          :: (cs.map sectionFromComponent ++ post) := by
  have hupd : applyDropComponent c1 S =
      { S with content := c1.content, type := c1.componentType, name := c1.name,
               linkedComponentId := some c1.id, originalContent := some c1.content,
               dirty := false } := by
    simp [applyDropComponent, hty]
  simp only [handleDrop]
  rw [if_pos (by simp)]
  simp only [Option.getD_some]
  rw [updateSectionById_append pre post S _ hpre hpost]
  have h1 : pre ++ applyDropComponent c1 S :: post =
      (pre ++ [applyDropComponent c1 S]) ++ post := by
    simp
  have h2 : pre.length + 1 = (pre ++ [applyDropComponent c1 S]).length := by
    simp
  rw [h1, h2, insertFan_append]
  simp [hupd]

/-- Witness for C3: a three-component folder dropped onto the middle
section of a three-section prompt. -/
theorem handleDrop_folder_fan_out_witness :
    handleDrop
        [⟨"sa", "instruction", "A", "aaa", true, none, none, false⟩,
         ⟨"ss", "instruction", "S", "sss", true, none, none, false⟩,
         ⟨"sb", "instruction", "B", "bbb", true, none, none, false⟩]
        ⟨"ss", "instruction", "S", "sss", true, none, none, false⟩ 1
        (.parsed { dragType := some "folder",
                   components := some [⟨"c1", "C1", "context", "one"⟩,
                                       ⟨"c2", "C2", "example", "two"⟩,
                                       ⟨"c3", "C3", "instruction", "three"⟩] }) =
      [⟨"sa", "instruction", "A", "aaa", true, none, none, false⟩,
       ⟨"ss", "context", "C1", "one", true, some "c1", some "one", false⟩,
       ⟨"section-for-c2", "example", "C2", "two", true, some "c2", some "two", false⟩,
       ⟨"section-for-c3", "instruction", "C3", "three", true, some "c3", some "three", false⟩,
       ⟨"sb", "instruction", "B", "bbb", true, none, none, false⟩] := by
  have h := handleDrop_folder_fan_out
    [⟨"sa", "instruction", "A", "aaa", true, none, none, false⟩]
    [⟨"sb", "instruction", "B", "bbb", true, none, none, false⟩]
    ⟨"ss", "instruction", "S", "sss", true, none, none, false⟩
    ⟨"c1", "C1", "context", "one"⟩
    [⟨"c2", "C2", "example", "two"⟩, ⟨"c3", "C3", "instruction", "three"⟩]
    (by decide) (by decide) (by decide)
  simpa [sectionFromComponent] using h

/-- One step of spec-level first-occurrence deduplication. -/
def dedupStep (acc : List String) (v : String) : List String :=
  if v ∈ acc then acc else acc ++ [v]

/-- Spec-level deduplication preserving first-occurrence order. -/
def dedupFirst (l : List String) : List String :=
  l.foldl dedupStep []

lemma extract_fold_eq (ms : List String) :
    ∀ acc : List String,
      ms.foldl extractStep acc =
        ((ms.map jsTrim).filter (fun v => v ≠ "")).foldl dedupStep acc := by
  induction ms with
  | nil => intro _; rfl
  | cons m ms ih =>
    intro acc
    simp only [List.foldl_cons, List.map_cons, List.filter_cons]
    by_cases h1 : jsTrim m = ""
    · have hstep : extractStep acc m = acc := by
        simp [extractStep, h1]
      rw [hstep, if_neg (by simp [h1]), ih]
    · rw [if_pos (by simp [h1])]
      simp only [List.foldl_cons]
      by_cases h2 : jsTrim m ∈ acc
      · have hstep : extractStep acc m = acc := by
          simp [extractStep, h2]
        have hd : dedupStep acc (jsTrim m) = acc := by
          simp [dedupStep, h2]
        rw [hstep, hd, ih]
      · have hstep : extractStep acc m = acc ++ [jsTrim m] := by
          simp [extractStep, h1, h2]
        have hd : dedupStep acc (jsTrim m) = acc ++ [jsTrim m] := by
          simp [dedupStep, h2]
        rw [hstep, hd, ih]

/-- C5: `extractVariables` returns exactly the regex captures, trimmed,
with names empty after trimming discarded and duplicates removed keeping
first-occurrence order; `extractVariables("\x7b\x7ba\x7d\x7d \x7b\x7bb\x7d\x7d \x7b\x7ba\x7d\x7d") = ["a","b"]`
and `extractVariables("\x7b\x7b a \x7d\x7d") = ["a"]`. -/
theorem extractVariables_spec :
    (∀ text : String,
      extractVariables text =
        dedupFirst (((scanVars text.data).map jsTrim).filter (fun v => v ≠ ""))) ∧
    extractVariables "\x7b\x7ba\x7d\x7d \x7b\x7bb\x7d\x7d \x7b\x7ba\x7d\x7d" = ["a", "b"] ∧
    extractVariables "\x7b\x7b a \x7d\x7d" = ["a"] := by
  refine ⟨fun text => ?_, by decide, by decide⟩
  by_cases h : text = ""
  · subst h
    rfl
  · rw [extractVariables, if_neg h]
    exact extract_fold_eq _ []

/-- C1 counterexample: with mapping `a ↦ "\x7b\x7bb\x7d\x7d", b ↦ "B"`, the
`\x7b\x7bb\x7d\x7d` occurrence injected by entry `a`'s value IS replaced by
entry `b` of the same call — the claim's "never replaced by another entry
of the same mapping" fails. -/
theorem replaceVariables_chains_cex :
    replaceVariables "\x7b\x7ba\x7d\x7d" [("a", "\x7b\x7bb\x7d\x7d"), ("b", "B")] = "B" ∧
    ("B" : String) ≠ "\x7b\x7bb\x7d\x7d" := by decide

/-- C1 amended: substitution is one global replacement per mapping entry,
in entry order, each acting on the accumulated result: a placeholder
injected by a value is never re-scanned by the entry that injected it (nor
within a single-entry call), but entries later in the iteration order do
process it. -/
theorem replaceVariables_sequential_pass :
    (∀ (text : String) (m₁ m₂ : List (String × String)),
      replaceVariables text (m₁ ++ m₂) = replaceVariables (replaceVariables text m₁) m₂) ∧
    replaceVariables "\x7b\x7ba\x7d\x7d" [("a", "\x7b\x7bb\x7d\x7d")] = "\x7b\x7bb\x7d\x7d" ∧
    replaceVariables "\x7b\x7bb\x7d\x7d" [("b", "x\x7b\x7bb\x7d\x7dy")] = "x\x7b\x7bb\x7d\x7dy" ∧
    replaceVariables "\x7b\x7ba\x7d\x7d" [("a", "\x7b\x7bc\x7d\x7d"), ("c", "Z")] = "Z" := by
  refine ⟨fun text m₁ m₂ => ?_, by decide, by decide, by decide⟩
  simp only [replaceVariables, List.foldl_append]
  rfl

/-! ## Order (in)dependence of `replaceVariables` -/

lemma replaceAllF_fuel_irrel (pat rep : List Char) :
    ∀ (f₁ f₂ : Nat) (s : List Char), s.length ≤ f₁ → s.length ≤ f₂ →
      replaceAllF pat rep f₁ s = replaceAllF pat rep f₂ s := by
  intro f₁
  induction f₁ with
  | zero =>
    intro f₂ s h1 _
    have hs : s = [] := List.length_eq_zero.1 (Nat.le_zero.1 h1)
    subst hs
    cases f₂ <;> rfl
  | succ f ih =>
    intro f₂ s h1 h2
    match s with
    | [] => cases f₂ <;> rfl
    | c :: cs =>
      obtain ⟨f₂', rfl⟩ : ∃ k, f₂ = k + 1 :=
        ⟨f₂ - 1, by simp at h2; omega⟩
      simp only [replaceAllF]
      by_cases h : pat ≠ [] ∧ pat <+: (c :: cs)
      · rw [if_pos h, if_pos h]
        have hlen : ((c :: cs).drop pat.length).length ≤ cs.length := by
          have : 1 ≤ pat.length := by
            cases hp : pat with
            | nil => exact absurd hp h.1
            | cons p ps => simp
          simp [List.length_drop]
          omega
        simp only [List.length_cons] at h1 h2
        exact congrArg (rep ++ ·) (ih _ _ (by omega) (by omega))
      · rw [if_neg h, if_neg h]
        simp only [List.length_cons] at h1 h2
        exact congrArg (c :: ·) (ih _ _ (by omega) (by omega))

lemma replaceAll_cons (pat rep : List Char) (c : Char) (cs : List Char) :
    replaceAll pat rep (c :: cs) =
      if pat ≠ [] ∧ pat <+: (c :: cs) then
        rep ++ replaceAll pat rep ((c :: cs).drop pat.length)
      else
        c :: replaceAll pat rep cs := by
  show replaceAllF pat rep (c :: cs).length (c :: cs) = _
  rw [show (c :: cs).length = cs.length + 1 from rfl]
  simp only [replaceAllF]
  by_cases h : pat ≠ [] ∧ pat <+: (c :: cs)
  · rw [if_pos h, if_pos h]
    have hp : 1 ≤ pat.length := by
      cases hp : pat with
      | nil => exact absurd hp h.1
      | cons p ps => simp
    exact congrArg (rep ++ ·)
      (replaceAllF_fuel_irrel pat rep _ _ _ (by simp [List.length_drop]; omega) le_rfl)
  · rw [if_neg h, if_neg h]
    exact congrArg (c :: ·) (replaceAllF_fuel_irrel pat rep _ _ _ le_rfl le_rfl)

lemma replaceAll_cons_ne (p₀ : Char) (pt rep : List Char) (c : Char) (cs : List Char)
    (h : c ≠ p₀) :
    replaceAll (p₀ :: pt) rep (c :: cs) = c :: replaceAll (p₀ :: pt) rep cs := by
  rw [replaceAll_cons, if_neg]
  rintro ⟨-, hpre⟩
  rw [List.cons_prefix_cons] at hpre
  exact h hpre.1.symm

lemma replaceAll_append_of_no_open (pt rep : List Char) (l : List Char)
    (hl : ∀ x ∈ l, x ≠ '\x7b') :
    ∀ y : List Char,
      replaceAll ('\x7b' :: pt) rep (l ++ y) = l ++ replaceAll ('\x7b' :: pt) rep y := by
  induction l with
  | nil => intro y; rfl
  | cons c l ih =>
    intro y
    rw [List.cons_append,
      replaceAll_cons_ne _ _ _ _ _ (hl c (List.mem_cons_self c l)),
      ih (fun x hx => hl x (List.mem_cons_of_mem c hx)), List.cons_append]

lemma replaceAll_match_head (p₀ : Char) (pt rep : List Char) (y : List Char) :
    replaceAll (p₀ :: pt) rep ((p₀ :: pt) ++ y) = rep ++ replaceAll (p₀ :: pt) rep y := by
  rw [List.cons_append, replaceAll_cons,
    if_pos ⟨List.cons_ne_nil p₀ pt, by rw [← List.cons_append]; exact List.prefix_append _ _⟩]
  congr 1
  rw [← List.cons_append, List.drop_left]

lemma prefix_clash (w z : List Char) :
    ∀ (A C : List Char), (∀ x ∈ A, x ≠ '\x7d') → (∀ x ∈ C, x ≠ '\x7d') →
      A ++ '\x7d' :: w <+: C ++ '\x7d' :: z → A = C ∧ w <+: z := by
  intro A
  induction A with
  | nil =>
    intro C hA hC h
    cases C with
    | nil =>
      simp only [List.nil_append, List.cons_prefix_cons] at h
      exact ⟨rfl, h.2⟩
    | cons c' C' =>
      simp only [List.nil_append, List.cons_append, List.cons_prefix_cons] at h
      exact absurd h.1.symm (hC c' (List.mem_cons_self c' C'))
  | cons a' A' ih =>
    intro C hA hC h
    cases C with
    | nil =>
      simp only [List.cons_append, List.nil_append, List.cons_prefix_cons] at h
      exact absurd h.1 (hA a' (List.mem_cons_self a' A'))
    | cons c' C' =>
      simp only [List.cons_append, List.cons_prefix_cons] at h
      obtain ⟨hhead, htail⟩ := h
      obtain ⟨hAC, hwz⟩ := ih C' (fun x hx => hA x (List.mem_cons_of_mem a' hx))
        (fun x hx => hC x (List.mem_cons_of_mem c' hx)) htail
      exact ⟨by rw [hhead, hAC], hwz⟩

lemma not_patOf_prefix_var (a c : String) (ha : ∀ x ∈ a.data, x ≠ '\x7d')
    (hc : ∀ x ∈ c.data, x ≠ '\x7d') (hne : a ≠ c) (y : List Char) :
    ¬ patOf a <+: ('\x7b' :: '\x7b' :: (c.data ++ '\x7d' :: '\x7d' :: y)) := by
  intro h
  simp only [patOf, List.cons_prefix_cons, true_and] at h
  have h' : a.data ++ '\x7d' :: ['\x7d'] <+: c.data ++ '\x7d' :: ('\x7d' :: y) := h
  obtain ⟨heq, -⟩ := prefix_clash ['\x7d'] ('\x7d' :: y) a.data c.data ha hc h'
  exact hne (String.ext heq)

lemma replaceAll_var_ne (a c : String) (rep : List Char)
    (ha : ∀ x ∈ a.data, x ≠ '\x7d') (hcO : ∀ x ∈ c.data, x ≠ '\x7b')
    (hcC : ∀ x ∈ c.data, x ≠ '\x7d') (hne : a ≠ c) (y : List Char) :
    replaceAll (patOf a) rep ('\x7b' :: '\x7b' :: (c.data ++ '\x7d' :: '\x7d' :: y)) =
      '\x7b' :: '\x7b' :: (c.data ++ '\x7d' :: '\x7d' :: replaceAll (patOf a) rep y) := by
  have hpat : patOf a = '\x7b' :: ('\x7b' :: (a.data ++ ['\x7d', '\x7d'])) := rfl
  rw [replaceAll_cons, if_neg]
  swap
  · rintro ⟨-, hpre⟩
    exact not_patOf_prefix_var a c ha hcC hne y hpre
  rw [replaceAll_cons, if_neg]
  swap
  · rintro ⟨-, hpre⟩
    rw [hpat, List.cons_prefix_cons] at hpre
    obtain ⟨-, hpre⟩ := hpre
    cases hcd : c.data with
    | nil =>
      rw [hcd] at hpre
      simp only [List.nil_append, List.cons_prefix_cons] at hpre
      exact absurd hpre.1 (by decide)
    | cons c0 cr =>
      rw [hcd] at hpre
      simp only [List.cons_append, List.cons_prefix_cons] at hpre
      exact (hcO c0 (by rw [hcd]; exact List.mem_cons_self c0 cr)) hpre.1.symm
  rw [hpat, replaceAll_append_of_no_open _ _ c.data hcO,
    replaceAll_cons_ne _ _ _ _ _ (by decide), replaceAll_cons_ne _ _ _ _ _ (by decide),
    ← hpat]

/-! A restricted domain on which order-independence does hold: texts built
from brace-free literal segments and `\x7b\x7bname\x7d\x7d` placeholders
with brace-free names, substituted with brace-free values.  On such texts
each entry rewrites exactly its own placeholder slots, so the entry fold
commutes. -/

/-- A template item: a literal text segment or a `\x7b\x7bname\x7d\x7d`
placeholder. -/
inductive TItem where
  | lit (s : String)
  | var (n : String)
deriving DecidableEq, Repr

/-- Characters of one template item. -/
def renderItem : TItem → List Char
  | .lit s => s.data
  | .var n => patOf n

/-- Characters of a template. -/
def render : List TItem → List Char
  | [] => []
  | i :: t => renderItem i ++ render t

/-- The text of a template. -/
def renderT (t : List TItem) : String :=
  (render t).asString

/-- Substitute one variable in one template item. -/
def substItem (a v : String) : TItem → TItem
  | .lit s => .lit s
  | .var n => if n = a then .lit v else .var n

/-- Substitute one variable throughout a template. -/
def substVar (a v : String) (t : List TItem) : List TItem :=
  t.map (substItem a v)

/-- A string without brace characters. -/
def braceFree (s : String) : Prop :=
  ∀ x ∈ s.data, x ≠ '\x7b' ∧ x ≠ '\x7d'

instance braceFree.dec (s : String) : Decidable (braceFree s) :=
  List.decidableBAll _ _

/-- Template-item wellformedness: its string is brace-free. -/
def goodItem : TItem → Prop
  | .lit s => braceFree s
  | .var n => braceFree n

instance goodItem.dec (i : TItem) : Decidable (goodItem i) := by
  cases i <;> simp only [goodItem] <;> infer_instance

/-- Template wellformedness. -/
def goodT (t : List TItem) : Prop :=
  ∀ i ∈ t, goodItem i

instance goodT.dec (t : List TItem) : Decidable (goodT t) :=
  List.decidableBAll _ _

lemma replaceAll_render (a v : String) (ha : braceFree a) :
    ∀ t : List TItem, goodT t →
      replaceAll (patOf a) v.data (render t) = render (substVar a v t)
  | [], _ => rfl
  | .lit s :: t, ht => by
    have hs : goodItem (.lit s) := ht _ (List.mem_cons_self _ _)
    have ht' : goodT t := fun i hi => ht i (List.mem_cons_of_mem _ hi)
    rw [render, renderItem,
      show patOf a = '\x7b' :: ('\x7b' :: (a.data ++ ['\x7d', '\x7d'])) from rfl,
      replaceAll_append_of_no_open _ _ s.data (fun x hx => (hs x hx).1),
      show ('\x7b' :: ('\x7b' :: (a.data ++ ['\x7d', '\x7d']))) = patOf a from rfl,
      replaceAll_render a v ha t ht']
    rfl
  | .var n :: t, ht => by
    have hn : goodItem (.var n) := ht _ (List.mem_cons_self _ _)
    have ht' : goodT t := fun i hi => ht i (List.mem_cons_of_mem _ hi)
    by_cases hna : n = a
    · subst hna
      rw [render,
        show renderItem (.var n) = patOf n from rfl,
        show patOf n = '\x7b' :: ('\x7b' :: (n.data ++ ['\x7d', '\x7d'])) from rfl,
        replaceAll_match_head,
        show ('\x7b' :: ('\x7b' :: (n.data ++ ['\x7d', '\x7d']))) = patOf n from rfl,
        replaceAll_render n v ha t ht']
      simp [substVar, substItem, render, renderItem]
    · have hshape : render (.var n :: t) =
          '\x7b' :: '\x7b' :: (n.data ++ '\x7d' :: '\x7d' :: render t) := by
        simp [render, renderItem, patOf]
      rw [hshape,
        replaceAll_var_ne a n v.data (fun x hx => (ha x hx).2)
          (fun x hx => (hn x hx).1) (fun x hx => (hn x hx).2)
          (fun h => hna h.symm) (render t),
        replaceAll_render a v ha t ht']
      simp [substVar, substItem, hna, render, renderItem, patOf]

lemma goodT_substVar (a v : String) (hv : braceFree v) (t : List TItem) (ht : goodT t) :
    goodT (substVar a v t) := by
  intro i hi
  simp only [substVar, List.mem_map] at hi
  obtain ⟨j, hj, rfl⟩ := hi
  cases j with
  | lit s => exact ht _ hj
  | var n =>
    simp only [substItem]
    by_cases h : n = a
    · rw [if_pos h]
      exact hv
    · rw [if_neg h]
      exact ht _ hj

lemma foldl_replaceAll_render (m : List (String × String)) :
    ∀ t : List TItem, goodT t → (∀ p ∈ m, braceFree p.1 ∧ braceFree p.2) →
      m.foldl (fun res nv => replaceAll (patOf nv.1) nv.2.data res) (render t) =
        render (m.foldl (fun acc nv => substVar nv.1 nv.2 acc) t) := by
  induction m with
  | nil => intro t _ _; rfl
  | cons nv m ih =>
    intro t ht hm
    simp only [List.foldl_cons]
    rw [replaceAll_render nv.1 nv.2 (hm nv (List.mem_cons_self _ _)).1 t ht]
    exact ih (substVar nv.1 nv.2 t)
      (goodT_substVar _ _ (hm nv (List.mem_cons_self _ _)).2 t ht)
      (fun p hp => hm p (List.mem_cons_of_mem _ hp))

lemma substItem_comm (a v b w : String) (hab : a ≠ b) (i : TItem) :
    substItem a v (substItem b w i) = substItem b w (substItem a v i) := by
  cases i with
  | lit s => rfl
  | var n =>
    by_cases h1 : n = b <;> by_cases h2 : n = a
    · exact absurd (h2 ▸ h1) hab
    · subst h1
      simp [substItem, h2]
    · subst h2
      simp [substItem, h1, hab]
    · simp [substItem, h1, h2]

lemma substVar_comm (a v b w : String) (hab : a ≠ b) (t : List TItem) :
    substVar a v (substVar b w t) = substVar b w (substVar a v t) := by
  simp only [substVar, List.map_map]
  exact List.map_congr_left fun i _ => substItem_comm a v b w hab i

lemma foldl_substVar_perm (m₁ m₂ : List (String × String)) (hperm : m₁.Perm m₂)
    (hnd : (m₁.map Prod.fst).Nodup) (t : List TItem) :
    m₁.foldl (fun acc nv => substVar nv.1 nv.2 acc) t =
      m₂.foldl (fun acc nv => substVar nv.1 nv.2 acc) t := by
  refine hperm.foldl_eq' (fun x hx y hy z => ?_) t
  by_cases hxy : x.1 = y.1
  · have hx_eq : x = y := List.inj_on_of_nodup_map hnd hx hy hxy
    rw [hx_eq]
  · exact substVar_comm y.1 y.2 x.1 x.2 (fun h => hxy h.symm) z

/-- C4 counterexample: the same set of entries processed in two iteration
orders yields different outputs — entry `a`'s value injects `b`'s
placeholder, which only a later `b` entry rewrites. -/
theorem replaceVariables_order_dependent_cex :
    List.Perm [("a", "\x7b\x7bb\x7d\x7d"), ("b", "2")]
      [("b", "2"), ("a", "\x7b\x7bb\x7d\x7d")] ∧
    replaceVariables "\x7b\x7ba\x7d\x7d" [("a", "\x7b\x7bb\x7d\x7d"), ("b", "2")] = "2" ∧
    replaceVariables "\x7b\x7ba\x7d\x7d" [("b", "2"), ("a", "\x7b\x7bb\x7d\x7d")] =
      "\x7b\x7bb\x7d\x7d" ∧
    ("2" : String) ≠ "\x7b\x7bb\x7d\x7d" := by
  exact ⟨by decide, by decide, by decide, by decide⟩

/-- A plain identifier character: alphanumeric. -/
def isPlainChar (c : Char) : Bool :=
  c.isAlphanum

/-- A plain identifier: every character alphanumeric.  On such names the
source's unescaped regex interpolation
(two escaped open braces, the name, two escaped close braces) contains no
metacharacter, so it matches exactly the literal `\x7b\x7bname\x7d\x7d`
that `patOf` models. -/
def plainName (s : String) : Prop :=
  ∀ x ∈ s.data, isPlainChar x = true

instance plainName.dec (s : String) : Decidable (plainName s) :=
  List.decidableBAll _ _

/-- A substitution value without brace characters (so it cannot create or
consume a placeholder pattern) and without `$` (so the source's
`$`-substitution sequences in `String.prototype.replace` cannot fire and
the replacement is verbatim, as `replaceAll` models). -/
def safeValue (s : String) : Prop :=
  ∀ x ∈ s.data, x ≠ '\x7b' ∧ x ≠ '\x7d' ∧ x ≠ '$'

instance safeValue.dec (s : String) : Decidable (safeValue s) :=
  List.decidableBAll _ _

lemma plainName_braceFree {s : String} (h : plainName s) : braceFree s := by
  intro x hx
  constructor
  · intro heq
    rw [heq] at hx
    have := h _ hx
    exact absurd this (by decide)
  · intro heq
    rw [heq] at hx
    have := h _ hx
    exact absurd this (by decide)

lemma safeValue_braceFree {s : String} (h : safeValue s) : braceFree s :=
  fun x hx => ⟨(h x hx).1, (h x hx).2.1⟩

/-- C4 amended: iteration order is immaterial only on inputs where no
substitution can introduce or consume another entry's pattern and the
source's regex machinery degenerates to literal search and verbatim
replacement: over any text made of brace-free literal segments and
placeholders with brace-free names, a mapping whose names are pairwise
distinct plain alphanumeric identifiers and whose values contain no brace
and no dollar characters produces the same output under every iteration
order.  (In general the result is order-dependent — see the
counterexample, where a value contains another entry's placeholder;
outside the plain-name domain the unescaped interpolation also makes the
name behave as a regex, another source of order dependence.) -/
theorem replaceVariables_order_independent
    (t : List TItem) (m₁ m₂ : List (String × String))
    (hperm : m₁.Perm m₂) (hnd : (m₁.map Prod.fst).Nodup)
    (ht : goodT t) (hm : ∀ p ∈ m₁, plainName p.1 ∧ safeValue p.2) :
    replaceVariables (renderT t) m₁ = replaceVariables (renderT t) m₂ := by
  have hm₁ : ∀ p ∈ m₁, braceFree p.1 ∧ braceFree p.2 :=
    fun p hp => ⟨plainName_braceFree (hm p hp).1, safeValue_braceFree (hm p hp).2⟩
  have hm₂ : ∀ p ∈ m₂, braceFree p.1 ∧ braceFree p.2 :=
    fun p hp => hm₁ p (hperm.mem_iff.2 hp)
  unfold replaceVariables
  have hdata : (renderT t).data = render t := rfl
  rw [hdata, foldl_replaceAll_render m₁ t ht hm₁, foldl_replaceAll_render m₂ t ht hm₂,
    foldl_substVar_perm m₁ m₂ hperm hnd t]

/-- Witness for C4's amended statement on a concrete two-variable template
and both orders of its mapping. -/
theorem replaceVariables_order_independent_witness :
    replaceVariables (renderT [.lit "Hi ", .var "a", .lit " and ", .var "b"])
        [("a", "1"), ("b", "2")] =
      replaceVariables (renderT [.lit "Hi ", .var "a", .lit " and ", .var "b"])
        [("b", "2"), ("a", "1")] :=
  replaceVariables_order_independent [.lit "Hi ", .var "a", .lit " and ", .var "b"]
    [("a", "1"), ("b", "2")] [("b", "2"), ("a", "1")]
    (by decide) (by decide) (by decide) (by decide)

end PromptBuilder
